import Mathlib

/-!
Verification development for the kaplay game-engine core, following the
natural-language specification of the repository.  The repository's `src`
tree ships only the public type declarations (`types.ts`); the runtime
behaviour behind those declarations is therefore modelled here from the
specification's own words, subsystem by subsystem:

* entity registry: object creation, tag indexes, `destroy`, `use`, `readd`;
* collision transition events (start / update / end per pair per frame);
* overlap resolution for static / dynamic body pairs;
* the tile grid with A*-style pathfinding (`getTilePath`);
* the body integrator's `jump` / grounded interaction;
* timer controllers and idempotent cancellation.

All definitions are executable; weights involving the diagonal step factor
`√2` are represented exactly as pairs `a + b·√2` with natural coefficients.
-/

namespace Kaplay

/-! ## Entity registry: objects, components, tags

Modelled from the spec: a game object has a unique integer id, a mutable
bag of attached components (insertion order = attachment order), a set of
string tags, an ordered children list, an optional parent reference and an
`exists` flag; the registry keeps a tag index mapping tag strings to the
ids of live objects carrying them. -/

/-- Modelled from the spec: a component is a named bundle with a declared
list of required component ids (`Comp.id` / `Comp.require` in the source
declarations). -/
structure CompSpec where
  cid : String
  requireIds : List String
deriving DecidableEq, Repr

/-- Modelled from the spec: one game object node of the scene graph. -/
structure Obj where
  oid : Nat
  comps : List CompSpec
  tags : List String
  parentId : Option Nat
  children : List Nat
  existsFlag : Bool
deriving DecidableEq, Repr

/-- Hook / event occurrences recorded by registry operations, used to state
that an operation does or does not fire `add` / `destroy` events and
component hooks. -/
inductive Ev where
  | addHook (oid : Nat) (comp : String)
  | destroyHook (oid : Nat) (comp : String)
  | addEvent (oid : Nat)
  | destroyEvent (oid : Nat)
deriving DecidableEq, Repr

/-- Modelled from the spec: the registry state — the live objects, the tag
index (tag string to ids), and a log of fired lifecycle hooks / events. -/
structure Game where
  objs : List Obj
  tagIndex : List (String × List Nat)
  log : List Ev
deriving Repr

/-- Modelled from the spec: `o.exists()` — whether the object with this id
is attached to the scene graph (present in the registry with its exists
flag still set). -/
def existsQ (g : Game) (i : Nat) : Bool :=
  g.objs.any fun o => o.oid = i && o.existsFlag

/-- Modelled from the spec: `destroy(obj)` invokes each component's
`destroy` hook in attachment order and a final destroy event, removes the
object's id from every tag index entry and from its parent's children, and
marks `exists = false`. -/
def destroy (g : Game) (i : Nat) : Game :=
  let hooks : List Ev :=
    (g.objs.find? (fun o => o.oid = i)).elim []
      (fun o => o.comps.map (fun c => Ev.destroyHook i c.cid) ++ [Ev.destroyEvent i])
  { objs := g.objs.map fun o =>
      if o.oid = i then { o with existsFlag := false, parentId := none }
      else { o with children := o.children.filter (· ≠ i) }
    tagIndex := g.tagIndex.map fun e => (e.1, e.2.filter (· ≠ i))
    log := g.log ++ hooks }

/-- Error raised when attaching a component whose `require` list names an
id that is not currently attached. -/
inductive UseError where
  | missingDependency
deriving DecidableEq, Repr

/-- Modelled from the spec: `obj.use(comp)` fails fast with
`MissingDependencyError` if any id in the component's `require` list is not
already present; otherwise it attaches the component, replacing any
attached component with a colliding id. -/
def use (o : Obj) (c : CompSpec) : Except UseError Obj :=
  if c.requireIds.all (fun r => o.comps.any (fun a => a.cid = r)) then
    .ok { o with comps := o.comps.filter (fun a => a.cid ≠ c.cid) ++ [c] }
  else
    .error .missingDependency

/-- Modelled from the spec: `readd(obj)` removes and re-inserts the object
without triggering add / destroy events or hooks: in whichever children
list the id occurs it is moved to the end (top of the draw order); nothing
else changes and nothing is logged. -/
def readd (g : Game) (i : Nat) : Game :=
  { g with objs := g.objs.map fun o =>
      if i ∈ o.children then { o with children := o.children.erase i ++ [i] }
      else o }

/-! ## Collision transition events

Modelled from the spec: "collide start" fires the first frame a pair is
found overlapping; "collide update" fires every frame the pair remains
overlapping (including the start frame); "collide end" fires the first
frame a previously-overlapping pair is no longer found — tracked via a
per-pair membership set compared frame-to-frame.  For a single pair the
membership set degenerates to one boolean carried across frames. -/

/-- Number of collide start / update / end events fired for one pair on one
frame. -/
structure CollisionEvents where
  starts : Nat
  updates : Nat
  ends : Nat
deriving DecidableEq, Repr

/-- Modelled from the spec: events fired on a frame, given whether the pair
was overlapping on the previous frame and whether it overlaps now. -/
def frameEvents (prev now : Bool) : CollisionEvents :=
  { starts := if now && !prev then 1 else 0
    updates := if now then 1 else 0
    ends := if !now && prev then 1 else 0 }

/-- Run the per-pair tracking over a sequence of frames: `overlaps` lists,
frame by frame, whether the narrow phase found the pair overlapping;
the result lists the events fired on each frame. -/
def runPair : Bool → List Bool → List CollisionEvents
  | _, [] => []
  | prev, now :: rest => frameEvents prev now :: runPair now rest

/-! ## Overlap resolution for solid bodies

Modelled from the spec: when two solid bodies overlap, each is pushed apart
along the displacement vector proportionally to inverse mass;
static/infinite-mass bodies do not move.  `displacement` is the minimal
translation the source object has to make to avoid the collision. -/

/-- Two-dimensional vector with exact rational coordinates. -/
structure Vec2 where
  x : Rat
  y : Rat
deriving DecidableEq, Repr

instance : Add Vec2 := ⟨fun a b => ⟨a.x + b.x, a.y + b.y⟩⟩

instance : Sub Vec2 := ⟨fun a b => ⟨a.x - b.x, a.y - b.y⟩⟩

/-- Scalar multiple of a vector. -/
def Vec2.scale (k : Rat) (v : Vec2) : Vec2 := ⟨k * v.x, k * v.y⟩

/-- Modelled from the spec: the body state the resolver touches — position,
the `isStatic` flag and the mass used for inverse-mass weighting. -/
structure Body where
  pos : Vec2
  isStatic : Bool
  mass : Rat
deriving DecidableEq, Repr

/-- Modelled from the spec: push an overlapping source/target pair apart
along `disp` (the displacement the source must make).  A static body never
moves; against a static body the dynamic one takes the full displacement;
two dynamic bodies split it proportionally to inverse mass. -/
def resolveCollision (src tgt : Body) (disp : Vec2) : Body × Body :=
  if src.isStatic && tgt.isStatic then (src, tgt)
  else if tgt.isStatic then ({ src with pos := src.pos + disp }, tgt)
  else if src.isStatic then (src, { tgt with pos := tgt.pos - disp })
  else
    let ws := 1 / src.mass
    let wt := 1 / tgt.mass
    ( { src with pos := src.pos + Vec2.scale (ws / (ws + wt)) disp }
    , { tgt with pos := tgt.pos - Vec2.scale (wt / (ws + wt)) disp } )

/-! ## Body integrator: jump -/

/-- Modelled from the spec: the body-component state `jump` reads —
vertical velocity, the configured `jumpForce`, and the derived grounded
flag of the current frame. -/
structure PhysBody where
  vy : Rat
  jumpForce : Rat
  grounded : Bool
deriving DecidableEq, Repr

/-- Modelled from the spec: `jump(force)` sets vertical velocity to
`-force` (or to the configured `jumpForce` when the argument is omitted)
only when currently grounded; otherwise it does nothing. -/
def jump (b : PhysBody) (force : Option Rat) : PhysBody :=
  if b.grounded then { b with vy := -(force.getD b.jumpForce) }
  else b

/-! ## Timer controllers -/

/-- Modelled from the spec: a scheduled-task record — remaining delay,
cancel flag, and whether the action already fired. -/
structure Timer where
  remaining : Rat
  cancelled : Bool
  fired : Bool
deriving DecidableEq, Repr

/-- Modelled from the spec: `cancel()` marks the controller cancelled. -/
def cancel (t : Timer) : Timer := { t with cancelled := true }

/-- Modelled from the spec: one update-phase step of the timer — a
cancelled or already-fired timer is untouched; otherwise the delay is
consumed and the action fires once the elapsed time reaches it. -/
def tick (dt : Rat) (t : Timer) : Timer :=
  if t.cancelled || t.fired then t
  else if t.remaining ≤ dt then { t with remaining := 0, fired := true }
  else { t with remaining := t.remaining - dt }

/-! ## Tile grid and pathfinding

Modelled from the spec: pathfinding is A* over the grid graph; neighbors
are the 4 orthogonal cells, plus the 4 diagonal cells when diagonals are
allowed; an edge to a neighbor is excluded if the neighbor is an obstacle,
if either tile's edge mask blocks the shared side, or — for diagonal moves
— if both orthogonal cut corners are blocked.  Edge weight is the
destination tile's cost (minimum / default weight 1 when unspecified,
i.e. left at the declared default 0) scaled by the Euclidean step distance:
1 for an orthogonal move, √2 for a diagonal one.  Weights are represented
exactly as `a + b·√2` with natural coefficients. -/

/-- Exact weight value `uns + rad·√2` (`uns`, `rad` natural numbers):
`uns` counts unit-length contributions, `rad` counts `√2`-length
(diagonal) contributions. -/
structure W where
  uns : Nat
  rad : Nat
deriving DecidableEq, Repr

instance : Add W := ⟨fun u v => ⟨u.uns + v.uns, u.rad + v.rad⟩⟩

/-- Decide `u ≤ v` for exact weights: `u.uns + u.rad·√2 ≤ v.uns + v.rad·√2`
reduces to a sign analysis of `p = u.uns - v.uns` against `q·√2` with
`q = v.rad - u.rad`, settled by comparing `p²` with `2·q²`. -/
def W.le (u v : W) : Bool :=
  let p : Int := (u.uns : Int) - (v.uns : Int)
  let q : Int := (v.rad : Int) - (u.rad : Int)
  if 0 ≤ q then decide (p ≤ 0) || decide (p * p ≤ 2 * (q * q))
  else decide (p ≤ 0) && decide (2 * (q * q) ≤ p * p)

/-- Modelled from the spec: the per-tile edge bitmask — which of the four
sides is impassable. -/
structure EdgeMask where
  left : Bool
  right : Bool
  top : Bool
  bottom : Bool
deriving DecidableEq, Repr

/-- Modelled from the spec: one tile's pathfinding metadata — obstacle
flag, traversal cost (declared default 0 = unspecified) and edge mask. -/
structure Tile where
  isObstacle : Bool
  cost : Nat
  edges : EdgeMask
deriving DecidableEq, Repr

/-- Integer tile position (column, row). -/
abbrev Pos := Int × Int

/-- Modelled from the spec: the level's tile grid — `rows × cols` of tile
metadata, addressed by integer (column, row). -/
structure Grid where
  width : Nat
  height : Nat
  tileAt : Int → Int → Tile

/-- Whether a tile position lies inside the grid. -/
def inBounds (g : Grid) (p : Pos) : Bool :=
  decide (0 ≤ p.1) && decide (p.1 < (g.width : Int))
    && decide (0 ≤ p.2) && decide (p.2 < (g.height : Int))

/-- Modelled from the spec: the weight contributed by entering a tile —
its traversal cost, with a minimum / default of 1 when the cost is
unspecified (left at the declared default 0). -/
def tileWeight (t : Tile) : Nat := max t.cost 1

/-- Scale a tile weight by the Euclidean step distance: an orthogonal step
contributes `c·1`, a diagonal step `c·√2`. -/
def scaleW (c : Nat) (diag : Bool) : W := if diag then ⟨0, c⟩ else ⟨c, 0⟩

/-- The four orthogonal step offsets. -/
def orthoDeltas : List (Int × Int) := [(1, 0), (-1, 0), (0, 1), (0, -1)]

/-- The four diagonal step offsets. -/
def diagDeltas : List (Int × Int) := [(1, 1), (1, -1), (-1, 1), (-1, -1)]

/-- Step offsets considered by the search, each tagged with whether it is
diagonal. -/
def taggedDeltas (allowDiag : Bool) : List ((Int × Int) × Bool) :=
  orthoDeltas.map (fun d => (d, false))
    ++ (if allowDiag then diagDeltas.map (fun d => (d, true)) else [])

/-- Modelled from the spec: whether either tile's edge mask blocks the
side shared by an orthogonal step `d`. -/
def edgeBlocked (src dst : Tile) (d : Int × Int) : Bool :=
  if d = ((1 : Int), (0 : Int)) then src.edges.right || dst.edges.left
  else if d = ((-1 : Int), (0 : Int)) then src.edges.left || dst.edges.right
  else if d = ((0 : Int), (1 : Int)) then src.edges.bottom || dst.edges.top
  else if d = ((0 : Int), (-1 : Int)) then src.edges.top || dst.edges.bottom
  else false

/-- A cell that cannot be cut across: out of bounds or an obstacle. -/
def blockedCell (g : Grid) (p : Pos) : Bool :=
  !inBounds g p || (g.tileAt p.1 p.2).isObstacle

/-- Modelled from the spec: a diagonal move is excluded when both
orthogonal cut corners are blocked. -/
def cornerBlocked (g : Grid) (p : Pos) (d : Int × Int) : Bool :=
  blockedCell g (p.1 + d.1, p.2) && blockedCell g (p.1, p.2 + d.2)

/-- One outgoing edge of the grid graph: destination tile, exact weight,
and whether the step is diagonal. -/
structure EdgeTo where
  dest : Pos
  weight : W
  isDiag : Bool
deriving DecidableEq, Repr

/-- Build the edge for one step offset, or nothing when the spec excludes
it (destination out of bounds or an obstacle, shared side blocked by an
edge mask, or a corner-cutting diagonal). -/
def mkEdge (g : Grid) (p : Pos) (dd : (Int × Int) × Bool) : Option EdgeTo :=
  let np : Pos := (p.1 + dd.1.1, p.2 + dd.1.2)
  if inBounds g np
      && !(g.tileAt np.1 np.2).isObstacle
      && !edgeBlocked (g.tileAt p.1 p.2) (g.tileAt np.1 np.2) dd.1
      && !(dd.2 && cornerBlocked g p dd.1) then
    some ⟨np, scaleW (tileWeight (g.tileAt np.1 np.2)) dd.2, dd.2⟩
  else none

/-- All outgoing edges of a tile position in the grid graph. -/
def neighbors (g : Grid) (allowDiag : Bool) (p : Pos) : List EdgeTo :=
  (taggedDeltas allowDiag).filterMap (mkEdge g p)

/-- Modelled from the spec: an admissible heuristic distance to the
target — octile distance when diagonal movement is enabled, Manhattan
distance (a lower bound on the true cost of 4-connected movement, standing
in for the spec's irrational-valued Euclidean distance while preserving
the admissibility the spec derives from that choice) otherwise. -/
def heuristic (allowDiag : Bool) (p t : Pos) : W :=
  let dx := (p.1 - t.1).natAbs
  let dy := (p.2 - t.2).natAbs
  if allowDiag then ⟨max dx dy - min dx dy, min dx dy⟩ else ⟨dx + dy, 0⟩

/-- One frontier entry of the A* search: current tile, the reversed tail
of the path (predecessor back to the start), accumulated path cost, and
the cached priority keys `fkey = gcost + heuristic` and
`hkey = heuristic`. -/
structure Entry where
  cur : Pos
  prev : List Pos
  gcost : W
  fkey : W
  hkey : W
deriving DecidableEq, Repr

/-- Modelled from the spec: frontier priority — lower `f = g + h` first,
ties broken by lower heuristic. -/
def keyLE (a b : Entry) : Bool :=
  if a.fkey = b.fkey then W.le a.hkey b.hkey else W.le a.fkey b.fkey

/-- Stable priority insertion: the new entry goes after every existing
entry whose key is less or equal, so equal-key entries keep insertion
order. -/
def insertEntry (e : Entry) : List Entry → List Entry
  | [] => [e]
  | x :: xs => if keyLE x e then x :: insertEntry e xs else e :: x :: xs

/-- Insert a batch of entries in order. -/
def insertAll (es : List Entry) (q : List Entry) : List Entry :=
  es.foldl (fun acc e => insertEntry e acc) q

/-- The A* main loop over a sorted frontier and a visited list, with a
fuel bound making termination manifest.  Popping the target reconstructs
the waypoint list (start inclusive); an exhausted frontier or fuel yields
no path. -/
def astarLoop (g : Grid) (allowDiag : Bool) (t : Pos) :
    Nat → List Entry → List Pos → Option (List Pos)
  | 0, _, _ => none
  | _ + 1, [], _ => none
  | fuel + 1, e :: rest, visited =>
    if e.cur = t then some (e.cur :: e.prev).reverse
    else if e.cur ∈ visited then astarLoop g allowDiag t fuel rest visited
    else
      astarLoop g allowDiag t fuel
        (insertAll
          ((neighbors g allowDiag e.cur).map fun n =>
            { cur := n.dest
              prev := e.cur :: e.prev
              gcost := e.gcost + n.weight
              fkey := e.gcost + n.weight + heuristic allowDiag n.dest t
              hkey := heuristic allowDiag n.dest t })
          rest)
        (e.cur :: visited)

/-- Modelled from the spec: `getTilePath` — A* from `f` to `t` over the
grid graph, returning the ordered waypoint list (start inclusive) or
`none` when the target is unreachable.  The fuel bound exceeds the largest
possible number of loop iterations (every expansion marks a new cell
visited and inserts at most 8 entries). -/
def getTilePath (g : Grid) (allowDiag : Bool) (f t : Pos) :
    Option (List Pos) :=
  astarLoop g allowDiag t (8 * g.width * g.height + 2)
    [{ cur := f, prev := [], gcost := ⟨0, 0⟩
       fkey := heuristic allowDiag f t, hkey := heuristic allowDiag f t }] []

/-- Whether `b` is reachable from `a` by one edge of the grid graph. -/
def stepOK (g : Grid) (allowDiag : Bool) (a b : Pos) : Bool :=
  (neighbors g allowDiag a).any fun e => decide (e.dest = b)

/-- Whether consecutive waypoints are each one grid-graph edge apart. -/
def chainOK (g : Grid) (allowDiag : Bool) : List Pos → Bool
  | [] => true
  | [_] => true
  | a :: b :: rest => stepOK g allowDiag a b && chainOK g allowDiag (b :: rest)

/-- Whether `p` is an ordered waypoint list from `f` (inclusive) to `t`
along edges of the grid graph. -/
def ValidPathB (g : Grid) (allowDiag : Bool) (f t : Pos) (p : List Pos) :
    Bool :=
  decide (p.head? = some f) && decide (p.getLast? = some t)
    && chainOK g allowDiag p

/-- Propositional form of `ValidPathB`. -/
def ValidPath (g : Grid) (allowDiag : Bool) (f t : Pos) (p : List Pos) :
    Prop :=
  ValidPathB g allowDiag f t p = true

/-- Invariant of the reversed paths carried by frontier entries: nonempty,
rooted at `f`, and linked by grid-graph edges (read right to left). -/
def revOK (g : Grid) (allowDiag : Bool) (f : Pos) : List Pos → Bool
  | [] => false
  | [c] => decide (c = f)
  | c :: d :: rest => stepOK g allowDiag d c && revOK g allowDiag f (d :: rest)

/-- Whether two consecutive waypoints differ in both coordinates, i.e. the
step between them is diagonal. -/
def isDiagStep (a b : Pos) : Bool :=
  decide (a.1 ≠ b.1) && decide (a.2 ≠ b.2)

/-- Total exact cost of a waypoint list: each step contributes the entered
tile's weight scaled by the step distance. -/
def pathCost (g : Grid) : List Pos → W
  | a :: b :: rest =>
    scaleW (tileWeight (g.tileAt b.1 b.2)) (isDiagStep a b)
      + pathCost g (b :: rest)
  | _ => ⟨0, 0⟩

/-- Concrete 4×2 level for the path witnesses: every tile has cost 1, no
obstacles, no blocked edges. -/
def gPath : Grid :=
  { width := 4
    height := 2
    tileAt := fun _ _ => ⟨false, 1, ⟨false, false, false, false⟩⟩ }

/-- Concrete 1×1 level used for the unreachable-target witness. -/
def gOne : Grid :=
  { width := 1
    height := 1
    tileAt := fun _ _ => ⟨false, 1, ⟨false, false, false, false⟩⟩ }

/-- Concrete registry used by witnesses: object 1 (tagged "enemy", one
component, child 2) and object 2 (tagged "enemy", child of 1). -/
def gEx : Game :=
  { objs :=
      [ ⟨1, [⟨"pos", []⟩], ["enemy"], none, [2], true⟩
      , ⟨2, [], ["enemy"], some 1, [], true⟩ ]
    tagIndex := [("enemy", [1, 2])]
    log := [] }

end Kaplay

namespace Kaplay

/-- C1: after `destroy(o)`, `o.exists()` is false, `o`'s id is absent from
every tag index entry, and `o` is absent from every other object's children
list — in particular from its former parent's children. -/
theorem destroy_removes_object (g : Game) (i : Nat) :
    existsQ (destroy g i) i = false
      ∧ (∀ e ∈ (destroy g i).tagIndex, i ∉ e.2)
      ∧ (∀ o ∈ (destroy g i).objs, o.oid ≠ i → i ∉ o.children) := by
  refine ⟨?_, ?_, ?_⟩
  · simp only [existsQ, destroy, List.any_map, List.any_eq_false, Function.comp]
    intro o _
    by_cases h : o.oid = i <;> simp [h]
  · intro e he
    simp only [destroy, List.mem_map] at he
    obtain ⟨e', _, rfl⟩ := he
    simp
  · intro o ho hne
    simp only [destroy, List.mem_map] at ho
    obtain ⟨o', _, rfl⟩ := ho
    by_cases h : o'.oid = i
    · simp [h] at hne
    · simp [h]

/-- Witness for C1: destroying object 2 of the concrete registry clears its
exists flag, removes it from the "enemy" tag entry and from object 1's
children. -/
theorem destroy_removes_object_witness :
    existsQ (destroy gEx 2) 2 = false
      ∧ (2 : Nat) ∉ [1]
      ∧ (2 : Nat) ∉ ([] : List Nat) := by
  obtain ⟨h1, h2, h3⟩ := destroy_removes_object gEx 2
  refine ⟨h1, ?_, ?_⟩
  · exact h2 ("enemy", [1]) (by simp [destroy, gEx])
  · exact h3 ⟨1, [⟨"pos", []⟩], ["enemy"], none, [], true⟩
      (by simp [destroy, gEx]) (by decide)

/-- C2: `use` fails with `MissingDependencyError` when some id in the
component's require list is attached to no current component, and succeeds
once every required id is attached. -/
theorem use_missing_dependency (o : Obj) (c : CompSpec) :
    ((∃ r ∈ c.requireIds, ∀ a ∈ o.comps, a.cid ≠ r) →
        use o c = .error .missingDependency)
      ∧ ((∀ r ∈ c.requireIds, ∃ a ∈ o.comps, a.cid = r) →
        ∃ o', use o c = .ok o') := by
  constructor
  · rintro ⟨r, hr, hnone⟩
    rw [use, if_neg]
    simp only [List.all_eq_true, List.any_eq_true, decide_eq_true_eq, not_forall]
    exact ⟨r, hr, fun ⟨a, ha, haeq⟩ => hnone a ha haeq⟩
  · intro h
    rw [use, if_pos]
    · exact ⟨_, rfl⟩
    · simp only [List.all_eq_true, List.any_eq_true, decide_eq_true_eq]
      exact h

/-- Witness for C2: on an object holding only a "pos" component, attaching
a component requiring "area" fails with the dependency error, and attaching
one requiring "pos" succeeds. -/
theorem use_missing_dependency_witness :
    use ⟨1, [⟨"pos", []⟩], [], none, [], true⟩ ⟨"sprite", ["area"]⟩
        = .error .missingDependency
      ∧ ∃ o', use ⟨1, [⟨"pos", []⟩], [], none, [], true⟩ ⟨"sprite", ["pos"]⟩
        = .ok o' := by
  constructor
  · exact (use_missing_dependency ⟨1, [⟨"pos", []⟩], [], none, [], true⟩
      ⟨"sprite", ["area"]⟩).1 ⟨"area", by simp, by decide⟩
  · exact (use_missing_dependency ⟨1, [⟨"pos", []⟩], [], none, [], true⟩
      ⟨"sprite", ["pos"]⟩).2 (by decide)

/-- C10: `readd` fires no add / destroy events or hooks (the log is
unchanged), leaves the tag index unchanged, and maps every object to one of
the original objects with identical id, components, tags, parent and exists
flag, the children list changed at most by reordering. -/
theorem readd_preserves (g : Game) (i : Nat) :
    (readd g i).log = g.log
      ∧ (readd g i).tagIndex = g.tagIndex
      ∧ ∀ o ∈ (readd g i).objs, ∃ o' ∈ g.objs,
          o.oid = o'.oid ∧ o.comps = o'.comps ∧ o.tags = o'.tags
            ∧ o.parentId = o'.parentId ∧ o.existsFlag = o'.existsFlag
            ∧ o.children.Perm o'.children := by
  refine ⟨rfl, rfl, ?_⟩
  intro o ho
  simp only [readd, List.mem_map] at ho
  obtain ⟨o', ho', rfl⟩ := ho
  by_cases h : i ∈ o'.children
  · refine ⟨o', ho', ?_⟩
    rw [if_pos h]
    exact ⟨rfl, rfl, rfl, rfl, rfl,
      (List.perm_append_singleton i _).trans (List.perm_cons_erase h).symm⟩
  · exact ⟨o', ho', by simp [h]⟩

/-- Witness for C10: re-adding object 2 of the concrete registry keeps the
log empty and yields an object permutation-equal in children to an original
object. -/
theorem readd_preserves_witness :
    (readd gEx 2).log = gEx.log
      ∧ ∃ o' ∈ gEx.objs, List.Perm [2] o'.children := by
  obtain ⟨h1, _, h3⟩ := readd_preserves gEx 2
  refine ⟨h1, ?_⟩
  obtain ⟨o', ho', hp⟩ := h3 ⟨1, [⟨"pos", []⟩], ["enemy"], none, [2], true⟩
    (by simp [readd, gEx])
  exact ⟨o', ho', hp.2.2.2.2.2⟩

/-- C3: for a pair that is non-overlapping on every frame before frame N
(`pre`, all false), overlapping on frames N..N+4 and separated on frame
N+5, the per-frame events are exactly: none before N, one start and one
update on N, one update on each of N+1..N+4, one end on N+5. -/
theorem collision_transition_events (pre : List Bool)
    (h : ∀ b ∈ pre, b = false) :
    runPair false (pre ++ [true, true, true, true, true, false]) =
      pre.map (fun _ => ⟨0, 0, 0⟩) ++
        [⟨1, 1, 0⟩, ⟨0, 1, 0⟩, ⟨0, 1, 0⟩, ⟨0, 1, 0⟩, ⟨0, 1, 0⟩, ⟨0, 0, 1⟩] := by
  induction pre with
  | nil => rfl
  | cons b t ih =>
    have hb : b = false := h b (List.mem_cons_self b t)
    subst hb
    simp only [List.cons_append, runPair, List.map_cons, List.append_eq]
    rw [ih fun x hx => h x (List.mem_cons_of_mem false hx)]
    rfl

/-- Witness for C3: with two quiet frames before the overlap window, the
event trace is exactly one start, five updates and one end, at the stated
frames. -/
theorem collision_transition_events_witness :
    runPair false [false, false, true, true, true, true, true, false] =
      [⟨0, 0, 0⟩, ⟨0, 0, 0⟩, ⟨1, 1, 0⟩, ⟨0, 1, 0⟩, ⟨0, 1, 0⟩, ⟨0, 1, 0⟩,
        ⟨0, 1, 0⟩, ⟨0, 0, 1⟩] :=
  collision_transition_events [false, false] (by decide)

/-- C4: resolving a static + dynamic overlapping pair leaves the static
body's position unchanged and moves the dynamic body by exactly the full
displacement vector (toward separation). -/
theorem resolve_static_pair (src tgt : Body) (disp : Vec2) :
    (src.isStatic = false → tgt.isStatic = true →
        (resolveCollision src tgt disp).1.pos = src.pos + disp
          ∧ (resolveCollision src tgt disp).2.pos = tgt.pos)
      ∧ (src.isStatic = true → tgt.isStatic = false →
        (resolveCollision src tgt disp).1.pos = src.pos
          ∧ (resolveCollision src tgt disp).2.pos = tgt.pos - disp) := by
  constructor
  · intro hs ht
    simp [resolveCollision, hs, ht]
  · intro hs ht
    simp [resolveCollision, hs, ht]

/-- Witness for C4: a dynamic body at the origin resolved against a static
body takes the full displacement `(1, 2)`; the static one stays put. -/
theorem resolve_static_pair_witness :
    (resolveCollision ⟨⟨0, 0⟩, false, 1⟩ ⟨⟨3, 0⟩, true, 1⟩ ⟨1, 2⟩).1.pos
        = (⟨0, 0⟩ : Vec2) + ⟨1, 2⟩
      ∧ (resolveCollision ⟨⟨0, 0⟩, false, 1⟩ ⟨⟨3, 0⟩, true, 1⟩ ⟨1, 2⟩).2.pos
        = (⟨3, 0⟩ : Vec2) :=
  (resolve_static_pair ⟨⟨0, 0⟩, false, 1⟩ ⟨⟨3, 0⟩, true, 1⟩ ⟨1, 2⟩).1 rfl rfl

/-- C8: `jump(force)` sets the vertical velocity to `-force` (to the
configured `-jumpForce` when `force` is omitted) when the body is grounded,
and has no effect at all when it is not. -/
theorem jump_only_when_grounded (b : PhysBody) (force : Option Rat) :
    (b.grounded = true → (jump b force).vy = -(force.getD b.jumpForce))
      ∧ (b.grounded = false → jump b force = b) := by
  constructor
  · intro h
    simp [jump, h]
  · intro h
    simp [jump, h]

/-- Witness for C8: a grounded body with `jumpForce = 10` jumping with the
argument omitted gets vertical velocity `-10`. -/
theorem jump_only_when_grounded_witness :
    (jump ⟨0, 10, true⟩ none).vy = -((none : Option Rat).getD 10) :=
  (jump_only_when_grounded ⟨0, 10, true⟩ none).1 rfl

/-- C9: cancelling twice equals cancelling once; cancelling an
already-cancelled controller changes nothing; and a cancelled controller is
inert — no tick ever fires it or changes it again. -/
theorem cancel_idempotent (t : Timer) :
    cancel (cancel t) = cancel t
      ∧ (t.cancelled = true → cancel t = t)
      ∧ ∀ dt, tick dt (cancel t) = cancel t := by
  refine ⟨rfl, ?_, ?_⟩
  · intro h
    cases t
    simp_all [cancel]
  · intro dt
    simp [tick, cancel]

/-- Unfolding equation for `chainOK` on a two-or-more element list. -/
theorem chainOK_cons_cons (g : Grid) (d : Bool) (a b : Pos)
    (rest : List Pos) :
    chainOK g d (a :: b :: rest)
      = (stepOK g d a b && chainOK g d (b :: rest)) := rfl

/-- Unfolding equation for `revOK` on a two-or-more element list. -/
theorem revOK_cons_cons (g : Grid) (d : Bool) (f a b : Pos)
    (rest : List Pos) :
    revOK g d f (a :: b :: rest)
      = (stepOK g d b a && revOK g d f (b :: rest)) := rfl

/-- An edge produced by `mkEdge` has an in-bounds destination and carries
the destination tile's weight scaled by the step kind. -/
theorem mkEdge_spec (g : Grid) (p : Pos) (dd : (Int × Int) × Bool)
    (e : EdgeTo) (h : mkEdge g p dd = some e) :
    inBounds g e.dest = true
      ∧ e.weight = scaleW (tileWeight (g.tileAt e.dest.1 e.dest.2)) e.isDiag := by
  simp only [mkEdge] at h
  split at h
  · next hc =>
      injection h with h
      subst h
      simp only [Bool.and_eq_true] at hc
      exact ⟨hc.1.1.1, rfl⟩
  · next => exact absurd h (by simp)

/-- A grid-graph step always lands in bounds. -/
theorem stepOK_inBounds (g : Grid) (d : Bool) (a b : Pos)
    (h : stepOK g d a b = true) : inBounds g b = true := by
  simp only [stepOK, List.any_eq_true, decide_eq_true_eq] at h
  obtain ⟨e, he, rfl⟩ := h
  simp only [neighbors, List.mem_filterMap] at he
  obtain ⟨dd, _, hmk⟩ := he
  exact (mkEdge_spec g a dd e hmk).1

/-- The head survives appending on the right. -/
theorem head?_append_some {α : Type} {xs : List α} (ys : List α) {a : α}
    (h : xs.head? = some a) : (xs ++ ys).head? = some a := by
  cases xs with
  | nil => simp at h
  | cons x t => exact h

/-- A linked waypoint list stays linked when one more reachable waypoint
is appended. -/
theorem chainOK_append (g : Grid) (d : Bool) :
    ∀ (xs : List Pos) (b c : Pos), chainOK g d xs = true →
      xs.getLast? = some b → stepOK g d b c = true →
      chainOK g d (xs ++ [c]) = true := by
  intro xs
  induction xs with
  | nil => intro b c _ h2 _; simp at h2
  | cons x t ih =>
    cases t with
    | nil =>
      intro b c _ h2 h3
      simp only [List.getLast?_singleton, Option.some.injEq] at h2
      subst h2
      simp [chainOK, h3]
    | cons y t2 =>
      intro b c h1 h2 h3
      rw [chainOK_cons_cons, Bool.and_eq_true] at h1
      rw [List.getLast?_cons_cons] at h2
      have hrec := ih b c h1.2 h2 h3
      show chainOK g d (x :: ((y :: t2) ++ [c])) = true
      rw [List.cons_append, chainOK_cons_cons, Bool.and_eq_true]
      rw [List.cons_append] at hrec
      exact ⟨h1.1, hrec⟩

/-- Reading a frontier entry's reversed path forwards yields a linked
waypoint list from the start `f` to the entry's current tile. -/
theorem revOK_sound (g : Grid) (d : Bool) (f : Pos) :
    ∀ l, revOK g d f l = true →
      chainOK g d l.reverse = true
        ∧ l.reverse.head? = some f
        ∧ l.reverse.getLast? = l.head? := by
  intro l
  induction l with
  | nil => intro h; simp [revOK] at h
  | cons c rest ih =>
    cases rest with
    | nil =>
      intro h
      simp only [revOK, decide_eq_true_eq] at h
      subst h
      exact ⟨rfl, rfl, rfl⟩
    | cons dd rest2 =>
      intro h
      rw [revOK_cons_cons, Bool.and_eq_true] at h
      obtain ⟨hstep, hrev⟩ := h
      obtain ⟨hch, hhd, hlast⟩ := ih hrev
      rw [List.reverse_cons]
      refine ⟨?_, head?_append_some [c] hhd, ?_⟩
      · exact chainOK_append g d _ dd c hch (hlast.trans rfl) hstep
      · rw [List.getLast?_concat]
        rfl

/-- Membership through stable priority insertion. -/
theorem mem_insertEntry {x e : Entry} :
    ∀ {l : List Entry}, x ∈ insertEntry e l → x = e ∨ x ∈ l := by
  intro l
  induction l with
  | nil =>
    intro h
    simp only [insertEntry, List.mem_singleton] at h
    exact Or.inl h
  | cons y ys ih =>
    intro h
    rw [insertEntry] at h
    by_cases hk : keyLE y e = true
    · rw [if_pos hk] at h
      rcases List.mem_cons.1 h with h | h
      · exact Or.inr (h ▸ List.mem_cons_self y ys)
      · rcases ih h with h | h
        · exact Or.inl h
        · exact Or.inr (List.mem_cons_of_mem y h)
    · rw [if_neg hk] at h
      rcases List.mem_cons.1 h with h | h
      · exact Or.inl h
      · exact Or.inr h

/-- Membership through batch insertion into the frontier. -/
theorem mem_insertAll {x : Entry} :
    ∀ (es q : List Entry), x ∈ insertAll es q → x ∈ es ∨ x ∈ q := by
  intro es
  induction es with
  | nil => intro q h; exact Or.inr h
  | cons e es2 ih =>
    intro q h
    have h' : x ∈ insertAll es2 (insertEntry e q) := h
    rcases ih (insertEntry e q) h' with h2 | h2
    · exact Or.inl (List.mem_cons_of_mem e h2)
    · rcases mem_insertEntry h2 with h3 | h3
      · exact Or.inl (h3 ▸ List.mem_cons_self e es2)
      · exact Or.inr h3

/-- Soundness of the A* loop: whenever every frontier entry carries a
linked reversed path rooted at `f`, a returned waypoint list is a valid
path from `f` to the target. -/
theorem astarLoop_sound (g : Grid) (d : Bool) (f t : Pos) :
    ∀ (fuel : Nat) (frontier : List Entry) (visited : List Pos)
      (p : List Pos),
      (∀ e ∈ frontier, revOK g d f (e.cur :: e.prev) = true) →
      astarLoop g d t fuel frontier visited = some p →
      ValidPath g d f t p := by
  intro fuel
  induction fuel with
  | zero =>
    intro frontier visited p _ h
    simp [astarLoop] at h
  | succ n ih =>
    intro frontier visited p hinv h
    cases frontier with
    | nil => simp [astarLoop] at h
    | cons e rest =>
      rw [astarLoop] at h
      by_cases hgoal : e.cur = t
      · rw [if_pos hgoal] at h
        injection h with h
        subst h
        have hrev := hinv e (List.mem_cons_self e rest)
        obtain ⟨hch, hhd, hlast⟩ := revOK_sound g d f (e.cur :: e.prev) hrev
        simp only [ValidPath, ValidPathB, Bool.and_eq_true, decide_eq_true_eq]
        exact ⟨⟨hhd, by rw [hlast, hgoal]; rfl⟩, hch⟩
      · rw [if_neg hgoal] at h
        by_cases hvis : e.cur ∈ visited
        · rw [if_pos hvis] at h
          exact ih rest visited p
            (fun x hx => hinv x (List.mem_cons_of_mem e hx)) h
        · rw [if_neg hvis] at h
          apply ih _ _ p _ h
          intro x hx
          rcases mem_insertAll _ _ hx with hmem | hmem
          · obtain ⟨nn, hn, rfl⟩ := List.mem_map.1 hmem
            rw [revOK_cons_cons, Bool.and_eq_true]
            refine ⟨?_, hinv e (List.mem_cons_self e rest)⟩
            simp only [stepOK, List.any_eq_true, decide_eq_true_eq]
            exact ⟨nn, hn, rfl⟩
          · exact hinv x (List.mem_cons_of_mem e hmem)

/-- Every waypoint after the first of a linked waypoint list is in
bounds. -/
theorem chainOK_tail_inBounds (g : Grid) (d : Bool) :
    ∀ p, chainOK g d p = true → ∀ b ∈ p.tail, inBounds g b = true := by
  intro p
  induction p with
  | nil => intro _ b hb; simp at hb
  | cons a rest ih =>
    cases rest with
    | nil => intro _ b hb; simp at hb
    | cons y t2 =>
      intro h b hb
      rw [chainOK_cons_cons, Bool.and_eq_true] at h
      rcases List.mem_cons.1 hb with rfl | hb2
      · exact stepOK_inBounds g d a b h.1
      · exact ih h.2 b hb2

/-- The last element of a list is a member. -/
theorem getLast?_mem_self {α : Type} :
    ∀ (l : List α) (a : α), l.getLast? = some a → a ∈ l := by
  intro l
  induction l with
  | nil => intro a h; simp at h
  | cons x t ih =>
    intro a h
    cases t with
    | nil =>
      simp only [List.getLast?_singleton, Option.some.injEq] at h
      exact h ▸ List.mem_cons_self x []
    | cons y t2 =>
      rw [List.getLast?_cons_cons] at h
      exact List.mem_cons_of_mem x (ih a h)

/-- On the 1×1 level there is no valid waypoint list to the out-of-bounds
tile (5, 5). -/
theorem noPath_gOne : ∀ p, ¬ ValidPath gOne false (0, 0) (5, 5) p := by
  intro p hp
  simp only [ValidPath, ValidPathB, Bool.and_eq_true, decide_eq_true_eq] at hp
  obtain ⟨⟨hhd, hlast⟩, hch⟩ := hp
  cases p with
  | nil => simp at hhd
  | cons a rest =>
    simp only [List.head?_cons, Option.some.injEq] at hhd
    subst hhd
    cases rest with
    | nil =>
      simp only [List.getLast?_singleton, Option.some.injEq] at hlast
      exact absurd hlast (by decide)
    | cons y t2 =>
      rw [List.getLast?_cons_cons] at hlast
      have hmem : ((5 : Int), (5 : Int)) ∈ (y :: t2) :=
        getLast?_mem_self (y :: t2) (5, 5) hlast
      have hin := chainOK_tail_inBounds gOne false _ hch (5, 5) hmem
      exact absurd hin (by decide)

/-- Witness for C9: on a live 5-second timer, cancelling before ticking
leaves exactly the once-cancelled state, and cancelling an
already-cancelled timer is the identity. -/
theorem cancel_idempotent_witness :
    cancel (cancel ⟨5, false, false⟩) = cancel ⟨5, false, false⟩
      ∧ cancel ⟨5, true, false⟩ = ⟨5, true, false⟩
      ∧ tick 1 (cancel ⟨5, false, false⟩) = cancel ⟨5, false, false⟩ := by
  obtain ⟨h1, _, h3⟩ := cancel_idempotent (⟨5, false, false⟩ : Timer)
  exact ⟨h1, (cancel_idempotent (⟨5, true, false⟩ : Timer)).2.1 rfl, h3 1⟩

/-- C5: every edge of the grid graph weighs the destination tile's cost —
at minimum 1, which is also the value when the cost is unspecified (left
at the declared default 0) — scaled by the Euclidean step distance: the
weight is `max cost 1` units for an orthogonal move and `max cost 1`
multiples of `√2` (the `rad` component of `W`) for a diagonal move. -/
theorem edge_weight_formula (g : Grid) (allowDiag : Bool) (p : Pos) :
    ∀ e ∈ neighbors g allowDiag p,
      e.weight =
        (if e.isDiag then (⟨0, max (g.tileAt e.dest.1 e.dest.2).cost 1⟩ : W)
          else ⟨max (g.tileAt e.dest.1 e.dest.2).cost 1, 0⟩) := by
  intro e he
  simp only [neighbors, List.mem_filterMap] at he
  obtain ⟨dd, _, hmk⟩ := he
  rw [(mkEdge_spec g p dd e hmk).2]
  cases h : e.isDiag <;> simp [scaleW, tileWeight, h]

/-- Witness for C5: the orthogonal edge from (0,0) to (1,0) of the 4×2
cost-1 level weighs exactly one unit. -/
theorem edge_weight_formula_witness :
    ((⟨(1, 0), ⟨1, 0⟩, false⟩ : EdgeTo) ∈ neighbors gPath false (0, 0))
      ∧ (⟨(1, 0), ⟨1, 0⟩, false⟩ : EdgeTo).weight
        = ⟨max (gPath.tileAt 1 0).cost 1, 0⟩ := by
  have hmem : (⟨(1, 0), ⟨1, 0⟩, false⟩ : EdgeTo)
      ∈ neighbors gPath false (0, 0) := by decide
  have hw := edge_weight_formula gPath false (0, 0)
    ⟨(1, 0), ⟨1, 0⟩, false⟩ hmem
  exact ⟨hmem, by simpa using hw⟩

/-- C6: `getTilePath` is a total function whose failure value is `none`:
any returned list is an ordered waypoint list from the start tile
(inclusive) to the target along grid-graph edges, and when no such
waypoint list exists at all the result is `none` — a normal return value,
not an exception. -/
theorem getTilePath_no_path (g : Grid) (allowDiag : Bool) (f t : Pos) :
    (∀ p, getTilePath g allowDiag f t = some p →
        ValidPath g allowDiag f t p)
      ∧ ((∀ p, ¬ ValidPath g allowDiag f t p) →
        getTilePath g allowDiag f t = none) := by
  have hsound : ∀ p, getTilePath g allowDiag f t = some p →
      ValidPath g allowDiag f t p := by
    intro p h
    apply astarLoop_sound g allowDiag f t _ _ _ p _ h
    intro e he
    simp only [List.mem_singleton] at he
    subst he
    simp [revOK]
  refine ⟨hsound, ?_⟩
  intro hno
  cases hres : getTilePath g allowDiag f t with
  | none => rfl
  | some p => exact absurd (hsound p hres) (hno p)

/-- Witness for C6: on the 1×1 level, pathfinding to the unreachable tile
(5, 5) returns `none`. -/
theorem getTilePath_no_path_witness :
    getTilePath gOne false (0, 0) (5, 5) = none :=
  (getTilePath_no_path gOne false (0, 0) (5, 5)).2 noPath_gOne

/-- C7: on the 4×2 level where every tile has cost 1 and there are no
obstacles, `getTilePath` from (0,0) to (3,0) with diagonals disallowed
returns exactly the 4-waypoint straight path of total length 3, and with
diagonals allowed returns a path of total cost at most 3; both results are
the stated values of a pure function, hence deterministic. -/
theorem getTilePath_unit_grid :
    getTilePath gPath false (0, 0) (3, 0)
        = some [(0, 0), (1, 0), (2, 0), (3, 0)]
      ∧ ((getTilePath gPath false (0, 0) (3, 0)).getD []).length = 4
      ∧ pathCost gPath [(0, 0), (1, 0), (2, 0), (3, 0)] = ⟨3, 0⟩
      ∧ ∃ p, getTilePath gPath true (0, 0) (3, 0) = some p
          ∧ W.le (pathCost gPath p) ⟨3, 0⟩ = true := by
  refine ⟨by decide, by decide, by decide,
    [(0, 0), (1, 0), (2, 0), (3, 0)], by decide, by decide⟩

end Kaplay
